import Mathlib

/-!
Verification of the clang-tidy runner (`src/clang-tidy/run.py`).

The development shallowly embeds the program's data model and operations:

* `worst_exit_code` — the exit-code merge rule, translated directly from the
  Python function of the same name.
* `ProcBuf` / `get_output` — the state of a `Process` handle relevant to
  `Process.get_output` (the capture buffer, its open/closed flag, the
  `self.output` cache) together with instrumentation counters for the number
  of `proc.wait()` calls and buffer reads performed.  Python truthiness of
  the cache (`if not self.output:`) is modelled by `pyTruthy`.
* `Job` / `SimProc` / `execStep` / `execLoop` / `runSeq` / `execute` — the
  scheduler.  The external tool is opaque, so each `Job` pairs an
  `Invocation`'s command with the environment's behaviour for it: the output
  it will produce, its exit status, and how many polling iterations pass
  before it terminates.  Side effects (stderr echoes, process starts, stdout
  prints, the `time.sleep` yield) are recorded in an explicit event trace.
* `scan_files` / `main` — the entry point, with `os.walk` supplied as an
  explicit listing.
-/

/-! ## Exit-code merge rule

Python source (`worst_exit_code(worst, cur)`):

```
if cur < 0:
    return min(worst, cur)
elif worst < 0:
    return worst
else:
    return max(worst, cur)
```
-/

def worst_exit_code (worst cur : Int) : Int :=
  if cur < 0 then
    -- Negative results take precedence, return the minimum
    min worst cur
  else if worst < 0 then
    -- We know cur is non-negative, negative worst must be minimum
    worst
  else
    -- We know neither are negative, return the maximum
    max worst cur

instance : RightCommutative worst_exit_code :=
  ⟨by
    intro b a₁ a₂
    simp only [worst_exit_code]
    split_ifs <;> omega⟩

/-- Claim C1: for all integers `worst` and `cur`, `worst_exit_code worst cur`
is `min worst cur` when `cur < 0`; is `worst` when `0 ≤ cur` and `worst < 0`;
and is `max worst cur` when both are non-negative. -/
theorem worst_exit_code_cases (worst cur : Int) :
    (cur < 0 → worst_exit_code worst cur = min worst cur) ∧
    (0 ≤ cur → worst < 0 → worst_exit_code worst cur = worst) ∧
    (0 ≤ cur → 0 ≤ worst → worst_exit_code worst cur = max worst cur) := by
  refine ⟨?_, ?_, ?_⟩ <;> intros <;> simp only [worst_exit_code] <;> split_ifs <;> omega

theorem worst_exit_code_cases_witness :
    worst_exit_code 3 (-2) = min 3 (-2) ∧
    worst_exit_code (-3) 2 = -3 ∧
    worst_exit_code 3 2 = max 3 2 :=
  ⟨(worst_exit_code_cases 3 (-2)).1 (by decide),
   (worst_exit_code_cases (-3) 2).2.1 (by decide) (by decide),
   (worst_exit_code_cases 3 2).2.2 (by decide) (by decide)⟩

/-- Claim C2: `worst_exit_code` is commutative and associative, hence the left
fold starting from `0` is invariant under permutation of the list of exit
statuses: the aggregated exit code does not depend on drain order. -/
theorem worst_exit_code_fold_perm :
    (∀ a b : Int, worst_exit_code a b = worst_exit_code b a) ∧
    (∀ a b c : Int,
      worst_exit_code (worst_exit_code a b) c =
        worst_exit_code a (worst_exit_code b c)) ∧
    (∀ l₁ l₂ : List Int, List.Perm l₁ l₂ →
      l₁.foldl worst_exit_code 0 = l₂.foldl worst_exit_code 0) := by
  refine ⟨?_, ?_, ?_⟩
  · intro a b
    simp only [worst_exit_code]
    split_ifs <;> omega
  · intro a b c
    simp only [worst_exit_code]
    split_ifs <;> omega
  · intro l₁ l₂ hp
    exact hp.foldl_eq 0

theorem worst_exit_code_fold_perm_witness :
    ([0, -1, 2] : List Int).foldl worst_exit_code 0 =
      ([2, 0, -1] : List Int).foldl worst_exit_code 0 :=
  worst_exit_code_fold_perm.2.2 [0, -1, 2] [2, 0, -1] (by decide)

/-! ## Process handle output capture

Python source (`Process.get_output`):

```
def get_output(self):
    if not self.output:
        self.proc.wait()
        self.outfile.seek(0)
        self.output = self.outfile.read().decode("utf-8")
        self.outfile.close()
    return self.output
```

`ProcBuf` is the state of a `Process` handle that `get_output` touches: the
decoded contents the child wrote to the capture buffer, whether the buffer
has been closed, and the `self.output` cache (`None` initially).  The
`waits` and `reads` counters instrument how many times `proc.wait()` was
invoked and how many times the buffer was read.  `seek(0)` on a closed file
raises `ValueError("I/O operation on closed file")`, modelled as the error
result; `proc.wait()` happens before the `seek`, so the wait counter is
bumped even on the failing path.
-/

structure ProcBuf where
  contents : String
  closed : Bool
  output : Option String
  waits : Nat
  reads : Nat
deriving DecidableEq, Repr

/-- Python truthiness of the `self.output` cache: `None` and the empty
string are both falsy. -/
def pyTruthy (o : Option String) : Bool :=
  match o with
  | none => false
  | some s => !(s == "")

def get_output (p : ProcBuf) : Except String (String × ProcBuf) :=
  if !(pyTruthy p.output) then
    -- self.proc.wait()
    let p1 : ProcBuf := { p with waits := p.waits + 1 }
    if p1.closed then
      -- self.outfile.seek(0) raises on a closed buffer
      Except.error "I/O operation on closed file"
    else
      -- self.outfile.seek(0); self.output = self.outfile.read().decode("utf-8");
      -- self.outfile.close(); return self.output
      Except.ok (p1.contents,
        { p1 with output := some p1.contents, closed := true, reads := p1.reads + 1 })
  else
    -- return self.output
    Except.ok (p.output.getD "", p)

/-- The state of a handle just after `Process.start`: output cache unset,
buffer open; `s` is the combined stdout+stderr text the child will have
written by the time the process is waited on. -/
def ProcBuf.fresh (s : String) : ProcBuf :=
  { contents := s, closed := false, output := none, waits := 0, reads := 0 }

/-- Claim C3 counterexample: for a handle whose entire captured output is the
empty string, the first `get_output` succeeds with `""` (closing the buffer
and performing one wait and one read), but the second call on the resulting
handle does not return the cached text: it fails, refuting the claim's "for
every possible output string (including the empty string)". -/
theorem get_output_second_call_empty_not_ok :
    get_output (ProcBuf.fresh "") =
      Except.ok ("", { contents := "", closed := true, output := some "",
                       waits := 1, reads := 1 }) ∧
    (get_output { contents := "", closed := true, output := some "",
                  waits := 1, reads := 1 }).isOk = false :=
  ⟨rfl, rfl⟩

/-- Claim C3 (amended): for every `Process` handle whose captured output is
nonempty, the output is computed once and cached: if `get_output` returns
text `s ≠ ""` and post-state `p'`, calling `get_output` again on `p'`
returns the identical text and leaves the state unchanged — in particular
the wait and read counters do not advance, so no further wait or buffer
read is performed. -/
theorem get_output_cached_nonempty (p p' : ProcBuf) (s : String)
    (h : get_output p = Except.ok (s, p')) (hs : s ≠ "") :
    get_output p' = Except.ok (s, p') := by
  obtain ⟨c, cl, o, w, r⟩ := p
  unfold get_output at h
  dsimp only at h
  split at h
  case isTrue hT =>
    split at h
    case isTrue => exact absurd h (by simp)
    case isFalse hcl =>
      rw [Except.ok.injEq, Prod.mk.injEq] at h
      obtain ⟨h1, h2⟩ := h
      subst h1
      subst h2
      unfold get_output
      simp [pyTruthy, hs]
  case isFalse hT =>
    rw [Except.ok.injEq, Prod.mk.injEq] at h
    obtain ⟨h1, h2⟩ := h
    subst h2
    unfold get_output
    dsimp only
    rw [if_neg hT]
    rw [h1]

theorem get_output_cached_nonempty_witness :
    get_output { contents := "hi", closed := true, output := some "hi",
                 waits := 1, reads := 1 } =
      Except.ok ("hi", { contents := "hi", closed := true, output := some "hi",
                         waits := 1, reads := 1 }) :=
  get_output_cached_nonempty (ProcBuf.fresh "hi")
    { contents := "hi", closed := true, output := some "hi",
      waits := 1, reads := 1 } "hi" rfl (by decide)

/-- Claim C10: for a handle whose entire captured output is the empty
string, the first `get_output` closes the buffer and returns `""`, but the
second call does not take the cached path (the guard tests Python
truthiness of the cache, and `""` is falsy): it re-enters the wait/read
path and the access to the already-closed buffer raises instead of
returning the cached empty text. -/
theorem get_output_empty_output_bug :
    get_output (ProcBuf.fresh "") =
      Except.ok ("", { contents := "", closed := true, output := some "",
                       waits := 1, reads := 1 }) ∧
    pyTruthy (some "") = false ∧
    get_output { contents := "", closed := true, output := some "",
                 waits := 1, reads := 1 } =
      Except.error "I/O operation on closed file" :=
  ⟨rfl, rfl, rfl⟩

/-! ## Scheduler

Python source (`execute(invocations, verbose, jobs, max_load_average=0)`):

```
exit_code = 0
if jobs == 1:
    for invocation in invocations:
        proc = invocation.start(verbose)
        print(proc.get_output())
        exit_code = worst_exit_code(exit_code, proc.returncode)
    return exit_code

pending = []
while invocations or pending:
    complete = [proc for proc in pending if proc.poll() is not None]
    for proc in complete:
        pending.remove(proc)
        print(proc.get_output())
        exit_code = worst_exit_code(exit_code, proc.returncode)
    capacity = jobs - len(pending)
    pending.extend(i.start(verbose) for i in invocations[:capacity])
    invocations = invocations[capacity:]
    time.sleep(0.0001)
return exit_code
```

The external tool is opaque ("a program that takes a file path and produces
output plus an exit code"), so a `Job` is an `Invocation`'s command together
with the environment's behaviour for it: the combined stdout+stderr text the
child will write, its exit status, and the number of polling iterations that
pass before `poll()` reports termination.  A `SimProc` is a started child:
its captured output, exit status, and remaining iterations until
termination; the `time.sleep` at the bottom of each loop iteration is where
wall-clock time passes, modelled by ticking every pending process's
`timeLeft` down by one.  Each handle's `get_output` is called exactly once,
on a freshly started handle, where it returns the complete buffer contents
(cf. `get_output` on `ProcBuf.fresh`); the drain therefore prints the
process's output directly.  `pending.remove(proc)` on distinct handles
removes exactly the completed ones, keeping order: the surviving pending
list is the complement filter.  Side effects are recorded as events:
`echo` (a line written to stderr), `start` (a child launched), `print` (a
captured output printed to stdout), `sleep` (the `time.sleep(0.0001)`
yield). -/

structure Job where
  command : List String
  output : String
  exitCode : Int
  delay : Nat
deriving DecidableEq, Repr

inductive Event where
  | echo (line : String)
  | start (j : Job)
  | print (s : String)
  | sleep
deriving DecidableEq, Repr

structure SimProc where
  output : String
  exitCode : Int
  timeLeft : Nat
deriving DecidableEq, Repr

/-- `Process.poll`: the exit status if the child has terminated, else
`none`. -/
def SimProc.poll (p : SimProc) : Option Int :=
  if p.timeLeft = 0 then some p.exitCode else none

/-- `Invocation.__str__`: the space-joined command. -/
def Job.render (j : Job) : String :=
  " ".intercalate j.command

/-- `Invocation.start(verbose)`: echo `# cmd` to stderr when verbose, then
launch the child (`Process.start`). -/
def Job.startEvents (j : Job) (verbose : Bool) : List Event :=
  (if verbose then [Event.echo ("# " ++ j.render)] else []) ++ [Event.start j]

/-- The `Process` handle produced by `Process.start` for this job. -/
def Job.toProc (j : Job) : SimProc :=
  { output := j.output, exitCode := j.exitCode, timeLeft := j.delay }

/-- Python list slicing `l[:c]` for an integer `c` (negative stops count
from the end, clamped at zero). -/
def pyTake (l : List α) (c : Int) : List α :=
  if 0 ≤ c then l.take c.toNat else l.take (l.length - (-c).toNat)

/-- Python list slicing `l[c:]`. -/
def pyDrop (l : List α) (c : Int) : List α :=
  if 0 ≤ c then l.drop c.toNat else l.drop (l.length - (-c).toNat)

/-- The completed handles collected by the drain scan:
`[proc for proc in pending if proc.poll() is not None]`. -/
def completedProcs (pending : List SimProc) : List SimProc :=
  pending.filter (fun p => p.poll.isSome)

/-- The pending list after each completed handle has been
`pending.remove`d. -/
def drainedPending (pending : List SimProc) : List SimProc :=
  pending.filter (fun p => !p.poll.isSome)

/-- Wall-clock time passing during the `time.sleep(0.0001)` yield: every
still-running child gets one iteration closer to termination. -/
def SimProc.tick (p : SimProc) : SimProc :=
  { p with timeLeft := p.timeLeft - 1 }

/-- State of the bounded-concurrency loop: the remaining worklist, the
pending pool, and the exit-code accumulator. -/
structure ExecState where
  invocations : List Job
  pending : List SimProc
  exit_code : Int
deriving DecidableEq, Repr

/-- One iteration of the `while invocations or pending` loop: drain, refill,
yield.  Returns the successor state and the events of the iteration. -/
def execStep (jobs : Int) (verbose : Bool) (s : ExecState) : ExecState × List Event :=
  let complete := completedProcs s.pending
  let pending1 := drainedPending s.pending
  let drainEv := complete.map (fun p => Event.print p.output)
  let code1 := complete.foldl (fun ec p => worst_exit_code ec p.exitCode) s.exit_code
  let capacity := jobs - (pending1.length : Int)
  let started := pyTake s.invocations capacity
  let rest := pyDrop s.invocations capacity
  let startEv := started.flatMap (fun j => j.startEvents verbose)
  let pending2 := (pending1 ++ started.map Job.toProc).map SimProc.tick
  ({ invocations := rest, pending := pending2, exit_code := code1 },
   drainEv ++ startEv ++ [Event.sleep])

/-- The `while invocations or pending` loop, with explicit fuel: `none`
means the given number of iterations did not reach termination. -/
def execLoop (jobs : Int) (verbose : Bool) : Nat → ExecState → Option (Int × List Event)
  | 0, s =>
    if s.invocations.isEmpty && s.pending.isEmpty then
      some (s.exit_code, [])
    else
      none
  | fuel + 1, s =>
    if s.invocations.isEmpty && s.pending.isEmpty then
      some (s.exit_code, [])
    else
      let p := execStep jobs verbose s
      match execLoop jobs verbose fuel p.1 with
      | none => none
      | some (c, tr) => some (c, p.2 ++ tr)

/-- The sequential regime (`jobs == 1`): start, block on `get_output`,
print, fold, in invocation order. -/
def runSeq (invs : List Job) (verbose : Bool) (exit_code : Int) : Int × List Event :=
  match invs with
  | [] => (exit_code, [])
  | j :: rest =>
    let r := runSeq rest verbose (worst_exit_code exit_code j.exitCode)
    (r.1, j.startEvents verbose ++ [Event.print j.output] ++ r.2)

/-- `execute(invocations, verbose, jobs, max_load_average=0)`.  The
`max_load_average` parameter is accepted but unused: the load-average
throttling block in the source is commented out. -/
def execute (invocations : List Job) (verbose : Bool) (jobs : Int)
    (max_load_average : Int) (fuel : Nat) : Option (Int × List Event) :=
  if jobs == 1 then
    some (runSeq invocations verbose 0)
  else
    execLoop jobs verbose fuel { invocations := invocations, pending := [], exit_code := 0 }

/-- The sequence of stdout prints in a trace. -/
def printsOf (tr : List Event) : List String :=
  tr.filterMap (fun e => match e with | Event.print s => some s | _ => none)

/-- The sequence of jobs started in a trace. -/
def startsOf (tr : List Event) : List Job :=
  tr.filterMap (fun e => match e with | Event.start j => some j | _ => none)

theorem printsOf_append (a b : List Event) :
    printsOf (a ++ b) = printsOf a ++ printsOf b :=
  List.filterMap_append ..

theorem startsOf_append (a b : List Event) :
    startsOf (a ++ b) = startsOf a ++ startsOf b :=
  List.filterMap_append ..

theorem printsOf_startEvents (j : Job) (v : Bool) :
    printsOf (j.startEvents v) = [] := by
  cases v <;> rfl

theorem startsOf_startEvents (j : Job) (v : Bool) :
    startsOf (j.startEvents v) = [j] := by
  cases v <;> rfl

theorem printsOf_print_one (s : String) : printsOf [Event.print s] = [s] := rfl

theorem startsOf_print_one (s : String) : startsOf [Event.print s] = [] := rfl

theorem printsOf_print_cons (s : String) (tr : List Event) :
    printsOf (Event.print s :: tr) = s :: printsOf tr := rfl

theorem startsOf_print_cons (s : String) (tr : List Event) :
    startsOf (Event.print s :: tr) = startsOf tr := rfl

theorem printsOf_runSeq (invs : List Job) (v : Bool) (e : Int) :
    printsOf (runSeq invs v e).2 = invs.map Job.output := by
  induction invs generalizing e with
  | nil => rfl
  | cons j rest ih =>
    simp [runSeq, printsOf_append, printsOf_startEvents, printsOf_print_one, printsOf_print_cons, ih]

theorem startsOf_runSeq (invs : List Job) (v : Bool) (e : Int) :
    startsOf (runSeq invs v e).2 = invs := by
  induction invs generalizing e with
  | nil => rfl
  | cons j rest ih =>
    simp [runSeq, startsOf_append, startsOf_startEvents, startsOf_print_one, startsOf_print_cons, ih]

/-- Claim C9: `max_load_average` is a no-op.  Two runs of `execute` that
differ only in the `max_load_average` argument return the same exit code
and produce the same trace (in particular the same printed output): the
load-average throttling block is commented out in the source and the
parameter is never read. -/
theorem execute_max_load_average_noop (invocations : List Job) (verbose : Bool)
    (jobs : Int) (l₁ l₂ : Int) (fuel : Nat) :
    execute invocations verbose jobs l₁ fuel = execute invocations verbose jobs l₂ fuel :=
  rfl

/-- Claim C5: with `jobs = 1`, `execute` runs strictly sequentially and the
sequence of printed outputs equals, element for element, the per-invocation
outputs in the order the invocations were supplied. -/
theorem execute_sequential_order (invocations : List Job) (verbose : Bool)
    (max_load_average : Int) (fuel : Nat) :
    ∃ c tr, execute invocations verbose 1 max_load_average fuel = some (c, tr) ∧
      printsOf tr = invocations.map Job.output :=
  ⟨(runSeq invocations verbose 0).1, (runSeq invocations verbose 0).2,
    rfl, printsOf_runSeq invocations verbose 0⟩

/-- Claim C8 counterexample: an iteration of the bounded-concurrency loop
that makes progress (here it starts one new process) still pauses: the
`time.sleep(0.0001)` at the bottom of the loop body is unconditional, so
the claim that a progressing iteration does not pause is false. -/
theorem execStep_progress_still_sleeps :
    startsOf (execStep 2 false
        { invocations := [{ command := ["tidy", "a.c"], output := "out",
                            exitCode := 0, delay := 1 }],
          pending := [], exit_code := 0 }).2 =
      [{ command := ["tidy", "a.c"], output := "out", exitCode := 0, delay := 1 }] ∧
    Event.sleep ∈ (execStep 2 false
        { invocations := [{ command := ["tidy", "a.c"], output := "out",
                            exitCode := 0, delay := 1 }],
          pending := [], exit_code := 0 }).2 := by
  refine ⟨rfl, ?_⟩
  show Event.sleep ∈ [Event.start _, Event.sleep]
  simp

/-- Claim C8 (amended): the yield step is taken in every iteration of the
bounded-concurrency loop, regardless of whether the drain or refill step
made progress: each iteration's event list ends with the
`time.sleep(0.0001)` yield. -/
theorem execStep_always_sleeps (jobs : Int) (verbose : Bool) (s : ExecState) :
    ∃ ev, (execStep jobs verbose s).2 = ev ++ [Event.sleep] := by
  refine ⟨(completedProcs s.pending).map (fun p => Event.print p.output) ++
    (pyTake s.invocations (jobs - ((drainedPending s.pending).length : Int))).flatMap
      (fun j => j.startEvents verbose), ?_⟩
  simp [execStep]

theorem execStep_fst_invocations (jobs : Int) (v : Bool) (s : ExecState) :
    (execStep jobs v s).1.invocations =
      pyDrop s.invocations (jobs - ((drainedPending s.pending).length : Int)) := rfl

theorem execStep_fst_pending (jobs : Int) (v : Bool) (s : ExecState) :
    (execStep jobs v s).1.pending =
      ((drainedPending s.pending) ++
        (pyTake s.invocations (jobs - ((drainedPending s.pending).length : Int))).map
          Job.toProc).map SimProc.tick := rfl

theorem execStep_snd_trace (jobs : Int) (v : Bool) (s : ExecState) :
    (execStep jobs v s).2 =
      (completedProcs s.pending).map (fun p => Event.print p.output) ++
        (pyTake s.invocations (jobs - ((drainedPending s.pending).length : Int))).flatMap
          (fun j => j.startEvents v) ++ [Event.sleep] := rfl

theorem pyTake_append_pyDrop (l : List α) (c : Int) :
    pyTake l c ++ pyDrop l c = l := by
  unfold pyTake pyDrop
  split <;> exact List.take_append_drop ..

theorem pyTake_ne_nil (l : List α) (c : Int) (hc : 1 ≤ c) (hl : l ≠ []) :
    pyTake l c ≠ [] := by
  unfold pyTake
  rw [if_pos (by omega)]
  apply List.ne_nil_of_length_pos
  rw [List.length_take]
  have h1 : 1 ≤ c.toNat := by omega
  have h2 : 0 < l.length := List.length_pos.mpr hl
  omega

theorem sum_map_add_one (l : List α) (f : α → Nat) :
    (l.map (fun a => f a + 1)).sum = (l.map f).sum + l.length := by
  induction l with
  | nil => rfl
  | cons a l ih => simp only [List.map_cons, List.sum_cons, List.length_cons, ih]; omega

theorem length_le_sum_map_succ (l : List α) (f : α → Nat) :
    l.length ≤ (l.map (fun a => f a + 1)).sum := by
  induction l with
  | nil => simp
  | cons a l ih => simp only [List.map_cons, List.sum_cons, List.length_cons]; omega

/-- Termination measure for the bounded-concurrency loop: every pending
process contributes its remaining iterations plus one (for its drain) and
every worklist entry its delay plus two (for its start and drain). -/
def stateMeasure (s : ExecState) : Nat :=
  (s.pending.map (fun p => p.timeLeft + 1)).sum +
    (s.invocations.map (fun j => j.delay + 2)).sum

theorem stateMeasure_pos (s : ExecState)
    (h : s.invocations ≠ [] ∨ s.pending ≠ []) : 1 ≤ stateMeasure s := by
  rcases s with ⟨I, P, e⟩
  unfold stateMeasure
  dsimp only at h ⊢
  rcases I with _ | ⟨j, I'⟩
  · rcases P with _ | ⟨p, P'⟩
    · simp at h
    · simp only [List.map_cons, List.sum_cons]
      omega
  · simp only [List.map_cons, List.sum_cons]
    omega

theorem execStep_measure_lt (jobs : Int) (v : Bool) (s : ExecState)
    (hj : 1 ≤ jobs) (hne : s.invocations ≠ [] ∨ s.pending ≠ []) :
    stateMeasure (execStep jobs v s).1 < stateMeasure s := by
  rcases s with ⟨I, P, e⟩
  dsimp only at hne
  rw [stateMeasure, execStep_fst_pending, execStep_fst_invocations]
  dsimp only
  rw [stateMeasure]
  dsimp only
  set C := completedProcs P with hC
  set D := drainedPending P with hD
  set cap := jobs - (D.length : Int) with hcap
  set st := pyTake I cap with hst
  set rest := pyDrop I cap with hrest
  have hsplitP : (P.map fun p => p.timeLeft + 1).sum =
      (C.map fun p => p.timeLeft + 1).sum + (D.map fun p => p.timeLeft + 1).sum := by
    have hperm : List.Perm (C ++ D) P := List.filter_append_perm _ P
    have := (hperm.map (fun p => p.timeLeft + 1)).sum_eq
    rw [List.map_append, List.sum_append] at this
    omega
  have hsplitI : (I.map fun j => j.delay + 2).sum =
      (st.map fun j => j.delay + 2).sum + (rest.map fun j => j.delay + 2).sum := by
    conv_lhs => rw [← pyTake_append_pyDrop I cap]
    rw [List.map_append, List.sum_append]
  rw [List.map_map, List.map_append, List.map_map, List.sum_append]
  simp only [Function.comp_def, SimProc.tick, Job.toProc]
  by_cases hprog : C = [] ∧ st = []
  · obtain ⟨hC0, hst0⟩ := hprog
    have hCC : List.filter (fun p => p.poll.isSome) P = [] := by
      have h := hC.symm.trans hC0
      unfold completedProcs at h
      exact h
    have hall : ∀ p ∈ P, p.timeLeft ≠ 0 := by
      intro p hp
      have h2 := List.filter_eq_nil_iff.mp hCC p hp
      simp only [SimProc.poll] at h2
      by_cases h0 : p.timeLeft = 0
      · simp [h0] at h2
      · exact h0
    have hDP : D = P := by
      rw [hD]
      unfold drainedPending
      apply List.filter_eq_self.mpr
      intro p hp
      simp only [SimProc.poll]
      rw [if_neg (hall p hp)]
      rfl
    have hPne : P ≠ [] := by
      intro hP0
      rcases hne with hI | hP
      · have : st ≠ [] := by
          apply pyTake_ne_nil I cap _ hI
          rw [hcap, hDP, hP0]
          simpa using hj
        exact this hst0
      · exact hP hP0
    have hrestI : rest = I := by
      have := pyTake_append_pyDrop I cap
      rw [← hst, ← hrest, hst0] at this
      simpa using this
    rw [hst0, hDP, hrestI]
    simp only [List.map_nil, List.sum_nil]
    have hstrict : (P.map fun p => p.timeLeft - 1 + 1).sum <
        (P.map fun p => p.timeLeft + 1).sum := by
      apply List.sum_lt_sum
      · intro p _
        omega
      · rcases P with _ | ⟨p, P'⟩
        · exact absurd rfl hPne
        · exact ⟨p, List.mem_cons_self .., by have := hall p (List.mem_cons_self ..); omega⟩
    omega
  · have hb1 : (D.map fun p => p.timeLeft - 1 + 1).sum ≤
        (D.map fun p => p.timeLeft + 1).sum :=
      List.sum_le_sum (by intro p _; omega)
    have hb2 : (st.map fun j => j.delay - 1 + 1).sum + st.length ≤
        (st.map fun j => j.delay + 2).sum := by
      have h1 : (st.map fun j => (j.delay - 1 + 1) + 1).sum =
          (st.map fun j => j.delay - 1 + 1).sum + st.length :=
        sum_map_add_one st _
      have h2 : (st.map fun j => (j.delay - 1 + 1) + 1).sum ≤
          (st.map fun j => j.delay + 2).sum :=
        List.sum_le_sum (by intro j _; omega)
      omega
    have hb3 : C.length ≤ (C.map fun p => p.timeLeft + 1).sum :=
      length_le_sum_map_succ C _
    have hpos : 1 ≤ C.length + st.length := by
      rw [not_and_or] at hprog
      rcases hprog with h | h
      · have := List.length_pos.mpr h
        omega
      · have := List.length_pos.mpr h
        omega
    omega

theorem startsOf_flatMap_startEvents (l : List Job) (v : Bool) :
    startsOf (l.flatMap (fun j => j.startEvents v)) = l := by
  induction l with
  | nil => rfl
  | cons j l ih => simp [List.flatMap_cons, startsOf_append, startsOf_startEvents, ih]

theorem printsOf_flatMap_startEvents (l : List Job) (v : Bool) :
    printsOf (l.flatMap (fun j => j.startEvents v)) = [] := by
  induction l with
  | nil => rfl
  | cons j l ih => simp [List.flatMap_cons, printsOf_append, printsOf_startEvents, ih]

theorem printsOf_map_print (l : List SimProc) :
    printsOf (l.map fun p => Event.print p.output) = l.map SimProc.output := by
  induction l with
  | nil => rfl
  | cons p l ih => simp [List.map_cons, printsOf_print_cons, ih, SimProc.output]

theorem startsOf_map_print (l : List SimProc) :
    startsOf (l.map fun p => Event.print p.output) = [] := by
  induction l with
  | nil => rfl
  | cons p l ih => simp [List.map_cons, startsOf_print_cons, ih]

theorem startsOf_sleep_one : startsOf [Event.sleep] = [] := rfl

theorem printsOf_sleep_one : printsOf [Event.sleep] = [] := rfl

theorem startsOf_execStep (jobs : Int) (v : Bool) (s : ExecState) :
    startsOf (execStep jobs v s).2 =
      pyTake s.invocations (jobs - ((drainedPending s.pending).length : Int)) := by
  rw [execStep_snd_trace, startsOf_append, startsOf_append, startsOf_map_print,
    startsOf_flatMap_startEvents, startsOf_sleep_one]
  simp

theorem printsOf_execStep (jobs : Int) (v : Bool) (s : ExecState) :
    printsOf (execStep jobs v s).2 = (completedProcs s.pending).map SimProc.output := by
  rw [execStep_snd_trace, printsOf_append, printsOf_append, printsOf_map_print,
    printsOf_flatMap_startEvents, printsOf_sleep_one]
  simp

theorem execStep_pending_outputs (jobs : Int) (v : Bool) (s : ExecState) :
    (execStep jobs v s).1.pending.map SimProc.output =
      (drainedPending s.pending).map SimProc.output ++
        (pyTake s.invocations
          (jobs - ((drainedPending s.pending).length : Int))).map Job.output := by
  rw [execStep_fst_pending]
  simp [List.map_map, List.map_append, Function.comp_def, SimProc.tick, Job.toProc,
    SimProc.output, Job.output]

theorem execLoop_total (jobs : Int) (v : Bool) (hj : 1 ≤ jobs) :
    ∀ fuel s, stateMeasure s ≤ fuel →
      ∃ c tr, execLoop jobs v fuel s = some (c, tr) ∧
        List.Perm (startsOf tr) s.invocations ∧
        List.Perm (printsOf tr)
          (s.pending.map SimProc.output ++ s.invocations.map Job.output) := by
  intro fuel
  induction fuel with
  | zero =>
    intro s hm
    have hterm : s.invocations = [] ∧ s.pending = [] := by
      by_contra hc
      rw [not_and_or] at hc
      have := stateMeasure_pos s hc
      omega
    refine ⟨s.exit_code, [], ?_, ?_, ?_⟩
    · simp [execLoop, hterm.1, hterm.2]
    · rw [hterm.1]
      exact List.Perm.refl _
    · rw [hterm.1, hterm.2]
      exact List.Perm.refl _
  | succ f ih =>
    intro s hm
    by_cases hterm : (s.invocations.isEmpty && s.pending.isEmpty) = true
    · rw [Bool.and_eq_true, List.isEmpty_iff, List.isEmpty_iff] at hterm
      refine ⟨s.exit_code, [], ?_, ?_, ?_⟩
      · simp [execLoop, hterm.1, hterm.2]
      · rw [hterm.1]
        exact List.Perm.refl _
      · rw [hterm.1, hterm.2]
        exact List.Perm.refl _
    · have hne : s.invocations ≠ [] ∨ s.pending ≠ [] := by
        rw [Bool.and_eq_true, not_and_or, List.isEmpty_iff, List.isEmpty_iff] at hterm
        exact hterm
      have hlt := execStep_measure_lt jobs v s hj hne
      obtain ⟨c, tr, hrun, hst, hpr⟩ := ih (execStep jobs v s).1 (by omega)
      refine ⟨c, (execStep jobs v s).2 ++ tr, ?_, ?_, ?_⟩
      · simp only [execLoop]
        rw [if_neg hterm]
        simp only [hrun]
      · rw [startsOf_append, startsOf_execStep]
        rw [execStep_fst_invocations] at hst
        have h1 := List.Perm.append_left
          (pyTake s.invocations (jobs - ((drainedPending s.pending).length : Int))) hst
        have h3 : List.Perm
            (pyTake s.invocations (jobs - ((drainedPending s.pending).length : Int)) ++
              pyDrop s.invocations (jobs - ((drainedPending s.pending).length : Int)))
            s.invocations := by
          rw [pyTake_append_pyDrop]
        exact h1.trans h3
      · rw [printsOf_append, printsOf_execStep]
        rw [execStep_pending_outputs, execStep_fst_invocations] at hpr
        have h1 := List.Perm.append_left
          ((completedProcs s.pending).map SimProc.output) hpr
        have hperm1 : List.Perm
            ((completedProcs s.pending).map SimProc.output ++
              (drainedPending s.pending).map SimProc.output)
            (s.pending.map SimProc.output) := by
          have h := (List.filter_append_perm (fun p => p.poll.isSome) s.pending).map
            SimProc.output
          rw [List.map_append] at h
          unfold completedProcs drainedPending
          exact h
        have heq2 : (pyTake s.invocations
              (jobs - ((drainedPending s.pending).length : Int))).map Job.output ++
            (pyDrop s.invocations
              (jobs - ((drainedPending s.pending).length : Int))).map Job.output =
            s.invocations.map Job.output := by
          rw [← List.map_append, pyTake_append_pyDrop]
        have h4 : List.Perm
            ((completedProcs s.pending).map SimProc.output ++
              ((drainedPending s.pending).map SimProc.output ++
                (pyTake s.invocations
                  (jobs - ((drainedPending s.pending).length : Int))).map Job.output ++
                (pyDrop s.invocations
                  (jobs - ((drainedPending s.pending).length : Int))).map Job.output))
            (s.pending.map SimProc.output ++ s.invocations.map Job.output) := by
          have hstep : (completedProcs s.pending).map SimProc.output ++
              ((drainedPending s.pending).map SimProc.output ++
                (pyTake s.invocations
                  (jobs - ((drainedPending s.pending).length : Int))).map Job.output ++
                (pyDrop s.invocations
                  (jobs - ((drainedPending s.pending).length : Int))).map Job.output) =
              ((completedProcs s.pending).map SimProc.output ++
                (drainedPending s.pending).map SimProc.output) ++
              ((pyTake s.invocations
                  (jobs - ((drainedPending s.pending).length : Int))).map Job.output ++
                (pyDrop s.invocations
                  (jobs - ((drainedPending s.pending).length : Int))).map Job.output) := by
            simp [List.append_assoc]
          rw [hstep, heq2]
          exact List.Perm.append hperm1 (List.Perm.refl _)
        exact h1.trans h4

/-- Claim C4: for every finite list of invocations and every parallelism
value `jobs ≥ 1`, `execute` terminates (for enough fuel in the bounded
regime) having started each invocation in the list exactly once and printed
its output exactly once: the started jobs are a permutation of the input
list and the printed outputs are a permutation of the per-invocation
outputs, in both the sequential and the bounded-concurrency regime. -/
theorem execute_starts_prints_once (invocations : List Job) (verbose : Bool)
    (jobs : Int) (max_load_average : Int) (hj : 1 ≤ jobs) :
    ∃ fuel c tr, execute invocations verbose jobs max_load_average fuel = some (c, tr) ∧
      List.Perm (startsOf tr) invocations ∧
      List.Perm (printsOf tr) (invocations.map Job.output) := by
  by_cases h1 : jobs = 1
  · subst h1
    refine ⟨0, (runSeq invocations verbose 0).1, (runSeq invocations verbose 0).2, rfl, ?_, ?_⟩
    · rw [startsOf_runSeq]
    · rw [printsOf_runSeq]
  · have hinit : stateMeasure { invocations := invocations, pending := [], exit_code := 0 } ≤
        stateMeasure { invocations := invocations, pending := [], exit_code := 0 } :=
      le_refl _
    obtain ⟨c, tr, hrun, hst, hpr⟩ := execLoop_total jobs verbose hj
      (stateMeasure { invocations := invocations, pending := [], exit_code := 0 })
      { invocations := invocations, pending := [], exit_code := 0 } hinit
    refine ⟨stateMeasure { invocations := invocations, pending := [], exit_code := 0 },
      c, tr, ?_, hst, ?_⟩
    · unfold execute
      rw [if_neg (by simpa using h1)]
      exact hrun
    · simpa using hpr

theorem execute_starts_prints_once_witness :
    ∃ fuel c tr,
      execute [{ command := ["tidy", "a.c"], output := "oa", exitCode := 0, delay := 1 }]
        false 2 0 fuel = some (c, tr) ∧
      List.Perm (startsOf tr)
        [{ command := ["tidy", "a.c"], output := "oa", exitCode := 0, delay := 1 }] ∧
      List.Perm (printsOf tr)
        ([{ command := ["tidy", "a.c"], output := "oa", exitCode := 0, delay := 1 }].map
          Job.output) :=
  execute_starts_prints_once
    [{ command := ["tidy", "a.c"], output := "oa", exitCode := 0, delay := 1 }]
    false 2 0 (by decide)

/-- Claim C6: in the bounded-concurrency loop with parallelism `jobs = k ≥ 1`,
each drain-then-refill iteration preserves the invariant that the pending
pool holds at most `k` process handles, and the bound also holds at the
intermediate point after the drain and before the refill; since the loop
starts with an empty pending pool, at most `k` processes are
started-but-not-yet-drained at every instant. -/
theorem execStep_pending_bounded (jobs : Int) (verbose : Bool) (s : ExecState)
    (hj : 1 ≤ jobs) (hs : (s.pending.length : Int) ≤ jobs) :
    ((drainedPending s.pending).length : Int) ≤ jobs ∧
    (((execStep jobs verbose s).1.pending.length : Int) ≤ jobs) := by
  have hd : (drainedPending s.pending).length ≤ s.pending.length :=
    List.length_filter_le _ _
  have hd' : ((drainedPending s.pending).length : Int) ≤ jobs := by omega
  have hcap : 0 ≤ jobs - ((drainedPending s.pending).length : Int) := by omega
  refine ⟨hd', ?_⟩
  rw [execStep_fst_pending]
  rw [List.length_map, List.length_append, List.length_map]
  unfold pyTake
  rw [if_pos hcap]
  have htk := List.length_take_le
    ((jobs - ((drainedPending s.pending).length : Int)).toNat) s.invocations
  have h2 : (((jobs - ((drainedPending s.pending).length : Int)).toNat : Nat) : Int) =
      jobs - ((drainedPending s.pending).length : Int) := Int.toNat_of_nonneg hcap
  omega

theorem execStep_pending_bounded_witness :
    ((drainedPending [{ output := "a", exitCode := 0, timeLeft := 0 }]).length : Int) ≤ 2 ∧
    (((execStep 2 false
        { invocations := [], pending := [{ output := "a", exitCode := 0, timeLeft := 0 }],
          exit_code := 5 }).1.pending.length : Int) ≤ 2) :=
  execStep_pending_bounded 2 false
    { invocations := [], pending := [{ output := "a", exitCode := 0, timeLeft := 0 }],
      exit_code := 5 } (by decide) (by decide)

/-! ## Entry point

Python source (`main(source_path, tidy_executable, verbose, jobs,
max_load_average, extra_args)`):

```
if not tidy_executable:
    print('error: clang-tidy executable not found', file=sys.stderr)
    return 1

scan_files = []
for root, _, files in os.walk(source_path):
    for file in files:
        if file.endswith('.c') or file.endswith('.cc') or file.endswith('.cpp'):
            scan_files.append(os.path.join(root, file))

invocations = [Invocation.get_command(tidy_executable, f) for f in scan_files]
return execute(invocations, verbose, jobs, max_load_average)
```

The filesystem is an external collaborator: the `os.walk` result is passed
in as an explicit listing of `(root, files)` pairs, and `os.path.join` for
a relative second component is the slash join.  `tidy_executable` is a
string (argparse `--binary`); Python truthiness makes the empty string the
"not configured" value.  The opaque external tool's behaviour is the
environment `env`, mapping each file path to the output text, exit status
and completion delay of the corresponding child process;
`Invocation.get_command(tidy_executable, f)` yields the command
`[tidy_executable, f]`. -/

/-- Python `str.endswith`. -/
def pyEndsWith (s suf : String) : Bool :=
  List.isSuffixOf suf.data s.data

def scan_files (walk : List (String × List String)) : List String :=
  walk.flatMap (fun rootFiles =>
    (rootFiles.2.filter (fun file =>
      pyEndsWith file ".c" || pyEndsWith file ".cc" || pyEndsWith file ".cpp")).map
      (fun file => rootFiles.1 ++ "/" ++ file))

/-- `Invocation.get_command(tidy_executable, file)` together with the
environment's behaviour for that file. -/
def mkJob (tidy_executable file : String) (env : String → String × Int × Nat) : Job :=
  { command := [tidy_executable, file], output := (env file).1,
    exitCode := (env file).2.1, delay := (env file).2.2 }

namespace run

def main (walk : List (String × List String)) (env : String → String × Int × Nat)
    (tidy_executable : String) (verbose : Bool) (jobs : Int)
    (max_load_average : Int) (fuel : Nat) : Option (Int × List Event) :=
  if tidy_executable == "" then
    some (1, [Event.echo "error: clang-tidy executable not found"])
  else
    execute ((scan_files walk).map (fun f => mkJob tidy_executable f env))
      verbose jobs max_load_average fuel

end run

/-- Claim C7: if no tool-executable path is configured, `main` reports the
condition to the diagnostic stream and returns exit status 1 before any
scheduling: no child process is started and no captured output is
printed. -/
theorem main_missing_tool_fails_fast (walk : List (String × List String))
    (env : String → String × Int × Nat) (tidy_executable : String) (verbose : Bool)
    (jobs : Int) (max_load_average : Int) (fuel : Nat)
    (h : tidy_executable = "") :
    ∃ tr, run.main walk env tidy_executable verbose jobs max_load_average fuel =
        some (1, tr) ∧
      Event.echo "error: clang-tidy executable not found" ∈ tr ∧
      startsOf tr = [] ∧ printsOf tr = [] := by
  subst h
  refine ⟨[Event.echo "error: clang-tidy executable not found"], rfl, ?_, rfl, rfl⟩
  exact List.mem_singleton.mpr rfl

theorem main_missing_tool_fails_fast_witness :
    ∃ tr, run.main [("src", ["a.c"])] (fun _ => ("", 0, 0)) "" false 1 0 0 =
        some (1, tr) ∧
      Event.echo "error: clang-tidy executable not found" ∈ tr ∧
      startsOf tr = [] ∧ printsOf tr = [] :=
  main_missing_tool_fails_fast [("src", ["a.c"])] (fun _ => ("", 0, 0)) "" false 1 0 0 rfl
